import Mathlib

/-!
Verification development for the openrelik-workers repository.

The definitions below are shallow embeddings, translated from the Python
sources of the repository:
  - workers/openrelik-worker-analyzer-config/src/analyzers/{sshd,redis,jenkins}_analyzer.py
  - workers/openrelik-worker-containers/src/container_drift.py
  - workers/openrelik-worker-containers/src/container_export.py
  - workers/openrelik-worker-floss/src/tasks.py
  - openrelik-worker-yara/src/tasks.py
Python regular expressions are embedded as explicit matchers over character
lists, machine behaviour that can raise (file reads, attribute errors) is
embedded with Except, and results of external binaries (hashcat, floss,
container-explorer) are parameters of the embedded functions.
-/

namespace OpenRelik

/-! ### Report model (openrelik_worker_common.reporting, interface per spec)

Priority is the ordered enum INFO < LOW < MEDIUM < HIGH < CRITICAL.  A report
starts with no priority and no summary; the analyzers assign both.  All
embedded analyzers write their bullets into a single details section, so the
report is modelled with one flat bullet list. -/

inductive Priority where
  | INFO | LOW | MEDIUM | HIGH | CRITICAL
deriving DecidableEq, Repr

def Priority.rank : Priority → Nat
  | .INFO => 0
  | .LOW => 1
  | .MEDIUM => 2
  | .HIGH => 3
  | .CRITICAL => 4

structure Bullet where
  text : String
  level : Nat
deriving DecidableEq, Repr

structure Report where
  title : String := ""
  priority : Option Priority := none
  summary : String := ""
  bullets : List Bullet := []
deriving DecidableEq, Repr

/-- Rank of the priority a report carries; a report whose priority was never
assigned ranks like INFO. -/
def Report.rank (r : Report) : Nat := (r.priority.getD .INFO).rank

/-! ### Character classes of the embedded regexes, on ASCII codes -/

/-- Python regex class \s : space, tab, newline, vertical tab, form feed,
carriage return. -/
def wsN (n : Nat) : Bool :=
  n == 32 || n == 9 || n == 10 || n == 11 || n == 12 || n == 13

/-- Python regex class \w restricted to ASCII: letters, digits, underscore. -/
def wordN (n : Nat) : Bool :=
  (48 ≤ n && n ≤ 57) || (65 ≤ n && n ≤ 90) || (97 ≤ n && n ≤ 122) || n == 95

/-- ASCII lower-casing on codes: maps 65..90 to 97..122, fixes the rest.
This is how re.IGNORECASE compares ASCII characters. -/
def lowN (n : Nat) : Nat :=
  if 65 ≤ n && n ≤ 90 then n + 32 else n

/-- Case-insensitive comparison of a pattern code with a subject code. -/
def ciN (p n : Nat) : Bool := lowN n == lowN p

/-- Case-insensitive character comparison, used for alternation words. -/
def ciC (p c : Char) : Bool := ciN p.toNat c.toNat

/-- Case-insensitive check that the word is a prefix of the subject. -/
def ciStartsWith : List Char → List Char → Bool
  | [], _ => true
  | _ :: _, [] => false
  | p :: ps, c :: cs => ciC p c && ciStartsWith ps cs

/-! ### Regex items

One item per construct occurring in the analyzer patterns.  altEnd models a
final alternation group such as (yes|prohibit-password|without-password) and
is only used as the last item of a pattern.  nwb models the trailing \b of
the redis default-port pattern: there it always follows the digit 9, a word
character, so the boundary holds exactly when no word character follows. -/

inductive RItem where
  | lit (n : Nat)                -- case-sensitive literal character
  | ci (n : Nat)                 -- literal character under IGNORECASE
  | wsStar                       -- \s*
  | wsPlus                       -- \s+
  | wsQuoteStar                  -- [\s"]*
  | notQuotePlus                 -- [^"]+
  | nwb                          -- \b placed after a word character
  | eol                          -- $ under MULTILINE
  | altEnd (alts : List String)  -- final alternation of literal words
deriving DecidableEq, Repr

/-- Matcher for the empty remainder of the subject. -/
def matchNil : List RItem → Bool
  | [] => true
  | .lit _ :: _ => false
  | .ci _ :: _ => false
  | .wsStar :: rest => matchNil rest
  | .wsPlus :: _ => false
  | .wsQuoteStar :: rest => matchNil rest
  | .notQuotePlus :: _ => false
  | .nwb :: rest => matchNil rest
  | .eol :: rest => matchNil rest
  | .altEnd alts :: _ => alts.any fun w => ciStartsWith w.toList []

/-- Matcher step on a non-empty subject c :: cs; k is the matcher for cs. -/
def matchCons (c : Char) (cs : List Char) (k : List RItem → Bool) :
    List RItem → Bool
  | [] => true
  | .lit n :: rest => c.toNat == n && k rest
  | .ci n :: rest => ciN n c.toNat && k rest
  | .wsStar :: rest =>
      matchCons c cs k rest || (wsN c.toNat && k (.wsStar :: rest))
  | .wsPlus :: rest =>
      wsN c.toNat && (k rest || k (.wsPlus :: rest))
  | .wsQuoteStar :: rest =>
      matchCons c cs k rest ||
        ((wsN c.toNat || c.toNat == 34) && k (.wsQuoteStar :: rest))
  | .notQuotePlus :: rest =>
      !(c.toNat == 34) && (k rest || k (.notQuotePlus :: rest))
  | .nwb :: rest => !(wordN c.toNat) && matchCons c cs k rest
  | .eol :: rest => c.toNat == 10 && matchCons c cs k rest
  | .altEnd alts :: _ => alts.any fun w => ciStartsWith w.toList (c :: cs)

/-- Anchored match of a pattern at the current position of the subject. -/
def matchSeq : List Char → List RItem → Bool
  | [], items => matchNil items
  | c :: cs, items => matchCons c cs (matchSeq cs) items

/-- Positions just after a newline, for a pattern anchored with ^ under
re.MULTILINE. -/
def afterNl (items : List RItem) : List Char → Bool
  | [] => false
  | c :: cs => (c.toNat == 10 && matchSeq cs items) || afterNl items cs

/-- re.search of a pattern anchored with ^ under re.MULTILINE: the match may
start at the beginning of the string or right after any newline. -/
def searchLineStarts (items : List RItem) (s : List Char) : Bool :=
  matchSeq s items || afterNl items s

/-- re.search of an unanchored pattern: the match may start anywhere. -/
def searchTails (items : List RItem) : List Char → Bool
  | [] => matchSeq [] items
  | c :: cs => matchSeq (c :: cs) items || searchTails items cs

/-- Literal word matched case-insensitively. -/
def ciItems (s : String) : List RItem := s.toList.map fun c => .ci c.toNat

/-- Literal word matched case-sensitively. -/
def litItems (s : String) : List RItem := s.toList.map fun c => .lit c.toNat

/-- Two subject strings that agree up to ASCII letter case, character by
character. -/
def caseEqChars : List Char → List Char → Bool
  | [], [] => true
  | c :: cs, d :: ds => lowN c.toNat == lowN d.toNat && caseEqChars cs ds
  | _, _ => false

/-- A pattern item whose acceptance of a subject character depends only on
the lower-cased character: every item except a case-sensitive literal
letter. -/
def RItem.caseBlind : RItem → Bool
  | .lit n => !(65 ≤ n && n ≤ 90) && !(97 ≤ n && n ≤ 122)
  | _ => true

/-- A pattern all of whose items are case-blind. -/
def itemsCaseBlind (items : List RItem) : Bool := items.all RItem.caseBlind

/-! ### SSHD analyzer (sshd_analyzer.py, analyze_config)

The three rule patterns, all compiled with re.IGNORECASE and re.MULTILINE. -/

namespace Sshd

/-- Pattern ^\s*PermitRootLogin\s*(yes|prohibit-password|without-password). -/
def permit_root_login_re : List RItem :=
  [.wsStar] ++ ciItems "PermitRootLogin" ++
    [.wsStar, .altEnd ["yes", "prohibit-password", "without-password"]]

/-- Pattern ^\s*PasswordAuthentication[\s"]*yes. -/
def password_authentication_re : List RItem :=
  [.wsStar] ++ ciItems "PasswordAuthentication" ++ [.wsQuoteStar] ++ ciItems "yes"

/-- Pattern ^\s*PermitEmptyPasswords[\s"]*Yes. -/
def permit_empty_passwords_re : List RItem :=
  [.wsStar] ++ ciItems "PermitEmptyPasswords" ++ [.wsQuoteStar] ++ ciItems "Yes"

/-- Report assembly of analyze_config given which of the three rules
matched: one bullet per match, then HIGH with the insecure summary when any
rule matched, otherwise LOW with the no-issues summary. -/
def reportOf (rootLogin passwordAuth emptyPasswords : Bool) : Report :=
  let bullets : List Bullet :=
    (if rootLogin then [⟨"Root login enabled.", 1⟩] else []) ++
    (if passwordAuth then [⟨"Password authentication enabled.", 1⟩] else []) ++
    (if emptyPasswords then [⟨"Empty passwords permitted.", 1⟩] else [])
  let num_misconfigs : Nat :=
    (if rootLogin then 1 else 0) + (if passwordAuth then 1 else 0) +
      (if emptyPasswords then 1 else 0)
  if num_misconfigs > 0 then
    { priority := some .HIGH, summary := "Insecure SSHD configuration found",
      bullets := bullets }
  else
    { priority := some .LOW, summary := "No issues found in SSH configuration",
      bullets := bullets }

/-- analyze_config of the SSHD analyzer on the text of the input file. -/
def analyze_config (config : String) : Report :=
  let cs := config.toList
  reportOf (searchLineStarts permit_root_login_re cs)
    (searchLineStarts password_authentication_re cs)
    (searchLineStarts permit_empty_passwords_re cs)

end Sshd

/-! ### Redis analyzer (redis_analyzer.py, analyze_config) -/

namespace Redis

/-- Pattern ^\s*bind[\s"]*0\.0\.0\.0, re.IGNORECASE and re.MULTILINE. -/
def bind_everywhere_re : List RItem :=
  [.wsStar] ++ ciItems "bind" ++ [.wsQuoteStar] ++ ciItems "0.0.0.0"

/-- Pattern port\s+6379\b, re.IGNORECASE only, not anchored. -/
def default_port_re : List RItem :=
  ciItems "port" ++ [.wsPlus] ++ ciItems "6379" ++ [.nwb]

/-- Pattern ^logfile\s+"[^"]+"$, re.MULTILINE only: the literal word logfile
is matched case-sensitively.  34 is the code of the double quote. -/
def missing_logs_re : List RItem :=
  litItems "logfile" ++ [.wsPlus, .lit 34, .notQuotePlus, .lit 34, .eol]

/-- Report assembly of analyze_config on a non-empty config, given which
rules fired: the bullets in source order, then HIGH with the insecure
summary when any finding fired; when nothing fired neither the summary nor
the priority is assigned. -/
def reportOf (bindEverywhere defaultPort logfileConfigured : Bool) : Report :=
  let bullets : List Bullet :=
    (if bindEverywhere then [⟨"Redis listening on every IP", 1⟩] else []) ++
    (if defaultPort then [⟨"Redis configured with default port (6379)", 1⟩] else []) ++
    (if !logfileConfigured then [⟨"Log destination not configured", 1⟩] else [])
  let num_misconfigs : Nat :=
    (if bindEverywhere then 1 else 0) + (if defaultPort then 1 else 0) +
      (if !logfileConfigured then 1 else 0)
  if num_misconfigs > 0 then
    { priority := some .HIGH, summary := "Insecure Redis configuration found",
      bullets := bullets }
  else
    { bullets := bullets }

/-- analyze_config of the Redis analyzer on the text of the input file. -/
def analyze_config (config : String) : Report :=
  if config = "" then
    { priority := some .LOW, summary := "No Redis config found" }
  else
    let cs := config.toList
    reportOf (searchLineStarts bind_everywhere_re cs)
      (searchTails default_port_re cs)
      (searchLineStarts missing_logs_re cs)

end Redis

/-! ### Jenkins analyzer (jenkins_analyzer.py) -/

namespace Jenkins

/-- For re.search of a pattern openTag(.*)closeTag: the group chars matched
by the greedy (.*) starting right after the open tag.  Dot does not match a
newline, so the group is the longest prefix of the current line that is
followed by the close tag; k counts down from the length of that line. -/
def greedyGroup (closeT rest : List Char) : Nat → Option (List Char)
  | 0 => if closeT.isPrefixOf rest then some [] else none
  | k + 1 =>
      if closeT.isPrefixOf (rest.drop (k + 1)) then some (rest.take (k + 1))
      else greedyGroup closeT rest k

/-- re.search for a pattern openTag(.*)closeTag: at the leftmost position
where the open tag occurs and the close tag follows on the same line, return
the group captured by the greedy (.*). -/
def findTag (openT closeT : List Char) : List Char → Option (List Char)
  | [] => none
  | c :: cs =>
      match
        (if openT.isPrefixOf (c :: cs) then
          let rest := (c :: cs).drop openT.length
          greedyGroup closeT rest (rest.takeWhile (fun a => a.toNat != 10)).length
        else none) with
      | some g => some g
      | none => findTag openT closeT cs

/-- The _extract_jenkins_version function: first match of the pattern
<version>(.*)</version>. -/
def extract_jenkins_version (config : String) : Option String :=
  (findTag "<version>".toList "</version>".toList config.toList).map List.asString

/-- The _extract_jenkins_credentials function: one (username, password hash)
pair made of the first match of <fullName>(.*)</fullName> and the first
match of <passwordHash>#jbcrypt:(.*)</passwordHash>, and no pair at all
unless both patterns match. -/
def extract_jenkins_credentials (config : String) : List (String × String) :=
  let password_hash_match :=
    findTag "<passwordHash>#jbcrypt:".toList "</passwordHash>".toList config.toList
  let username_match := findTag "<fullName>".toList "</fullName>".toList config.toList
  match username_match, password_hash_match with
  | some username, some password_hash =>
      [(username.asString, password_hash.asString)]
  | _, _ => []

/-- Update of a Python dict entry: an existing key keeps its position and
gets the new value, a new key is appended. -/
def dictInsert (reg : List (String × String)) (key value : String) :
    List (String × String) :=
  match reg with
  | [] => [(key, value)]
  | (k, v) :: rest =>
      if k = key then (k, value) :: rest else (k, v) :: dictInsert rest key value

/-- The dict comprehension of analyze_jenkins building the hash-to-username
registry: for a hash occurring several times the later username wins. -/
def credentialsRegistry (credentials : List (String × String)) :
    List (String × String) :=
  credentials.foldl (fun reg cred => dictInsert reg cred.2 cred.1) []

/-- Python dict lookup .get on the registry. -/
def dictGet (reg : List (String × String)) (key : String) : Option String :=
  match reg with
  | [] => none
  | (k, v) :: rest => if k = key then some v else dictGet rest key

/-- Normalisation of the version inside analyze_jenkins: a missing or empty
version becomes the string Unknown. -/
def normVersion : Option String → String
  | none => "Unknown"
  | some s => if s = "" then "Unknown" else s

/-- One per-password bullet line of analyze_jenkins.  In the task the cracked
hash always comes from the registry; a miss is rendered as None here where
the Python format call would fail instead. -/
def userBullet (registry : List (String × String)) (password_hash plaintext : String) :
    String :=
  "User \"" ++ (dictGet registry password_hash).getD "None" ++
    "\" with password \"" ++ plaintext ++ "\""

/-- The analyze_jenkins function.  weak_passwords is the result of the
external bruteforce_password_hashes call on the registry keys, a list of
(password hash, cracked plaintext) pairs. -/
def analyze_jenkins (version : Option String)
    (credentials : List (String × String))
    (weak_passwords : List (String × String)) : Report :=
  let credentials_registry := credentialsRegistry credentials
  let v := normVersion version
  let versionBullet : Bullet := ⟨"Jenkins version: " ++ v, 1⟩
  if !weak_passwords.isEmpty then
    { priority := some .CRITICAL,
      summary := "Jenkins analysis found potential issues",
      bullets := [versionBullet,
          ⟨toString weak_passwords.length ++ " weak password(s) found:", 1⟩] ++
        weak_passwords.map fun wp =>
          ⟨userBullet credentials_registry wp.1 wp.2, 2⟩ }
  else if !credentials_registry.isEmpty || v ≠ "Unknown" then
    { priority := some .MEDIUM,
      summary := "Jenkins version " ++ v ++ " found with " ++
        toString credentials_registry.length ++
        " credentials, but no issues detected",
      bullets := [versionBullet] }
  else
    { priority := some .LOW,
      summary := "No Jenkins instance found",
      bullets := [versionBullet] }

end Jenkins

/-! ### Container drift (container_drift.py) -/

namespace Drift

/-- Python values occurring in decoded container-explorer JSON output. -/
inductive JValue where
  | null
  | bool (b : Bool)
  | num (n : Int)
  | str (s : String)
  | list (xs : List JValue)
  | obj (fields : List (String × JValue))

/-- Python truthiness of a decoded JSON value. -/
def JValue.truthy : JValue → Bool
  | .null => false
  | .bool b => b
  | .num n => n != 0
  | .str s => s ≠ ""
  | .list xs => !xs.isEmpty
  | .obj fields => !fields.isEmpty

/-- isinstance(x, list). -/
def JValue.isList : JValue → Bool
  | .list _ => true
  | _ => false

/-- Python dict .get with no default.  Keys of a dict decoded from JSON are
unique, so first-match lookup is the dict lookup. -/
def objGet (fields : List (String × JValue)) (key : String) : Option JValue :=
  match fields with
  | [] => none
  | (k, v) :: rest => if k = key then some v else objGet rest key

/-- Python dict .get with a default value. -/
def objGetD (fields : List (String × JValue)) (key : String) (dflt : JValue) :
    JValue :=
  (objGet fields key).getD dflt

/-! Python str() of a decoded JSON value, and repr() of elements inside
containers; 39 is the code of the single quote. -/

mutual

def pyStr : JValue → String
  | .str s => s
  | v => pyRepr v

def pyRepr : JValue → String
  | .null => "None"
  | .bool b => if b then "True" else "False"
  | .num n => toString n
  | .str s => String.mk ((Char.ofNat 39) :: s.toList ++ [Char.ofNat 39])
  | .list xs => "[" ++ pyReprSep xs ++ "]"
  | .obj fields => "\x7b" ++ pyReprFields fields ++ "\x7d"

def pyReprSep : List JValue → String
  | [] => ""
  | [x] => pyRepr x
  | x :: y :: rest => pyRepr x ++ ", " ++ pyReprSep (y :: rest)

def pyReprFields : List (String × JValue) → String
  | [] => ""
  | [(k, v)] => pyRepr (.str k) ++ ": " ++ pyRepr v
  | (k, v) :: f :: rest =>
      pyRepr (.str k) ++ ": " ++ pyRepr v ++ ", " ++ pyReprFields (f :: rest)
end

/-- One flattened drift record, the dict literal built by
_create_drift_record.  Missing file metadata is replaced by the placeholder
dash; file_size goes through str(). -/
structure DriftRecord where
  container_id : JValue
  container_type : JValue
  drift_status : String
  file_name : JValue
  file_path : JValue
  file_size : String
  file_type : JValue
  file_modified : JValue
  file_accessed : JValue
  file_changed : JValue
  file_birth : JValue
  file_sha256 : JValue

/-- Keys of the record dict, in the order of the dict literal. -/
def driftRecordKeys : List String :=
  ["container_id", "container_type", "drift_status", "file_name", "file_path",
   "file_size", "file_type", "file_modified", "file_accessed", "file_changed",
   "file_birth", "file_sha256"]

/-- Values of the record dict, in key order, as written by the csv writer. -/
def DriftRecord.values (r : DriftRecord) : List String :=
  [pyStr r.container_id, pyStr r.container_type, r.drift_status,
   pyStr r.file_name, pyStr r.file_path, r.file_size, pyStr r.file_type,
   pyStr r.file_modified, pyStr r.file_accessed, pyStr r.file_changed,
   pyStr r.file_birth, pyStr r.file_sha256]

/-- The _create_drift_record function on one file_info entry.  Calling .get
on anything but a dict raises AttributeError in Python, embedded as the
error case. -/
def create_drift_record (container_id container_type : JValue)
    (drift_status : String) : JValue → Except String DriftRecord
  | .obj fields =>
      .ok { container_id := container_id
            container_type := container_type
            drift_status := drift_status
            file_name := objGetD fields "file_name" (.str "-")
            file_path := objGetD fields "full_path" (.str "-")
            file_size := pyStr (objGetD fields "file_size" (.str "-"))
            file_type := objGetD fields "file_type" (.str "-")
            file_modified := objGetD fields "file_modified" (.str "-")
            file_accessed := objGetD fields "file_accessed" (.str "-")
            file_changed := objGetD fields "file_changed" (.str "-")
            file_birth := objGetD fields "file_birth" (.str "-")
            file_sha256 := objGetD fields "file_sha256" (.str "-") }
  | _ => .error "AttributeError: file_info.get"

/-- The inner for loop over the files of one list value, appending one
record per file entry. -/
def recordsOfFiles (container_id container_type : JValue)
    (drift_status : String) : List JValue → Except String (List DriftRecord)
  | [] => .ok []
  | f :: rest => do
      let r ← create_drift_record container_id container_type drift_status f
      let more ← recordsOfFiles container_id container_type drift_status rest
      return r :: more

/-- Conversion of the value stored under AddedOrModified or
InaccessibleFiles for one entry: the files are iterated only when the value
is truthy and an actual list, otherwise the key yields no records. -/
def recordsOfListField (container_id container_type : JValue)
    (drift_status : String) : Option JValue → Except String (List DriftRecord)
  | some v =>
      if v.truthy && v.isList then
        match v with
        | .list files => recordsOfFiles container_id container_type drift_status files
        | _ => .ok []
      else .ok []
  | none => .ok []

/-- Loop body of _flattern_container_drift_data for one entry of the
top-level list.  An entry that is not a dict raises AttributeError on
item.get in Python, embedded as the error case. -/
def flattenItem : JValue → Except String (List DriftRecord)
  | .obj fields => do
      let container_id := objGetD fields "ContainerID" (.str "")
      let container_type := objGetD fields "ContainerType" (.str "")
      let addedOrModified ← recordsOfListField container_id container_type
        "File added or modified" (objGet fields "AddedOrModified")
      let inaccessible ← recordsOfListField container_id container_type
        "File deleted" (objGet fields "InaccessibleFiles")
      return addedOrModified ++ inaccessible
  | _ => .error "AttributeError: item.get"

/-- The outer for loop of _flattern_container_drift_data, extending
drift_data with the records of each entry in order. -/
def flattenItems : List JValue → Except String (List DriftRecord)
  | [] => .ok []
  | item :: rest => do
      let recs ← flattenItem item
      let more ← flattenItems rest
      return recs ++ more

/-- The _flattern_container_drift_data function on the decoded top-level
list. -/
def flattern_container_drift_data (data : List JValue) :
    Except String (List DriftRecord) :=
  if data.isEmpty then .ok []
  else flattenItems data

/-- The value stored under AddedOrModified or InaccessibleFiles is malformed
in the sense of the defensive guard: missing, or not a list, or None, or an
empty list. -/
def listFieldMalformed : Option JValue → Prop
  | some (.list (_ :: _)) => False
  | _ => True

/-- A drift entry whose two file-list keys are both malformed or missing. -/
def entryMalformed (item : JValue) : Prop :=
  ∃ fields, item = .obj fields ∧
    listFieldMalformed (objGet fields "AddedOrModified") ∧
    listFieldMalformed (objGet fields "InaccessibleFiles")

end Drift

/-! ### Drift output files and task report (container_drift.py) -/

namespace Drift

/-- Substring test, used for the .json check of create_task_report. -/
def containsSub (s pat : List Char) : Bool :=
  match s with
  | [] => pat.isEmpty
  | _ :: rest => pat.isPrefixOf s || containsSub rest pat

/-- Output file descriptor.  Modelled from the spec: create_output_file of
the common library (not part of this repository) builds a descriptor whose
path is the display name plus the extension under the output directory. -/
structure OutFileDesc where
  path : String
  display_name : String
  extension : String
deriving DecidableEq, Repr

/-- Modelled from the spec: create_output_file of the common library. -/
def create_output_file (output_base_path display_name extension : String) :
    OutFileDesc :=
  { path := output_base_path ++ "/" ++ display_name ++ "." ++ extension,
    display_name := display_name, extension := extension }

/-- Content written to durable storage for one drift output file: json.dump
of the records, or the csv header row plus one row of stringified values per
record. -/
inductive FileContent where
  | jsonRecords (records : List DriftRecord)
  | csvTable (header : List String) (rows : List (List String))

/-- The _create_drift_output_files function: nothing for empty data,
otherwise a json dump and a csv export of the same records, in that order.
The second component is the written file system, path to content. -/
def create_drift_output_files (output_path : String) (data : List DriftRecord) :
    List OutFileDesc × List (String × FileContent) :=
  if data.isEmpty then ([], [])
  else
    let json_output_file := create_output_file output_path "container_drift" "json"
    let csv_output_file := create_output_file output_path "container_drift" "csv"
    ([json_output_file, csv_output_file],
     [(json_output_file.path, .jsonRecords data),
      (csv_output_file.path, .csvTable driftRecordKeys (data.map DriftRecord.values))])

/-- The record-counting loop of create_task_report: files without a path or
whose path does not contain .json are skipped; a json file is opened and its
decoded length added.  A missing file or non-json content would raise. -/
def countJsonRecords (fs : List (String × FileContent)) :
    List OutFileDesc → Except String Nat
  | [] => .ok 0
  | f :: rest =>
      if f.path = "" then countJsonRecords fs rest
      else if !containsSub f.path.toList ".json".toList then countJsonRecords fs rest
      else
        match fs.lookup f.path with
        | none => .error "FileNotFoundError"
        | some (.jsonRecords records) =>
            (countJsonRecords fs rest).map fun n => records.length + n
        | some (.csvTable _ _) => .error "JSONDecodeError"

/-- The create_task_report function of container_drift.py, with content
empty as in the task: the output-file count bullet, then the record count
bullet read back from the json files. -/
def create_task_report (output_files : List OutFileDesc)
    (fs : List (String × FileContent)) : Except String Report := do
  let record_count ← countJsonRecords fs output_files
  return { title := "Container Drift Report",
           bullets := [⟨toString output_files.length ++ " output files created", 1⟩,
                       ⟨toString record_count ++ " files added, modified, or deleted", 1⟩] }

/-- Core of run_container_drift: the containerd drift records and then the
docker drift records, each extended onto the result only when non-empty, the
two runs of container-explorer being external. -/
def run_container_drift_data (containerd_drift_data docker_drift_data :
    List DriftRecord) : List DriftRecord :=
  let drift_data : List DriftRecord := []
  let drift_data :=
    if !containerd_drift_data.isEmpty then drift_data ++ containerd_drift_data
    else drift_data
  let drift_data :=
    if !docker_drift_data.isEmpty then drift_data ++ docker_drift_data
    else drift_data
  drift_data

end Drift

/-! ### FLOSS task (openrelik-worker-floss/src/tasks.py)

The per-input floss runs are external; what the task sees of them is the
line count of each output file, one count per input file in processing
order. -/

namespace Floss

/-- The final check of the floss task: raise RuntimeError when no output
file was produced, or when the line count of the LAST output file (the
output_file variable left over from the loop) is zero. -/
def raisesNoStrings (lineCounts : List Nat) : Bool :=
  lineCounts.isEmpty || lineCounts.getLast? == some 0

/-- Total number of extracted strings across all input files. -/
def totalStrings (lineCounts : List Nat) : Nat := lineCounts.sum

end Floss

/-! ### Mount/unmount control flow

Per-disk processing of container_drift.py and container_export.py, and the
whole-task mounting of openrelik-worker-yara/src/tasks.py, embedded as
control-flow skeletons that record how often BlockDevice.umount is called.
Mount results and per-mountpoint outcomes parameterise the skeletons since
they come from the mount utility and the external tools. -/

namespace Mounts

/-- Result of bd.setup() plus bd.mount() for one disk. -/
inductive MountResult where
  | raisesRuntime
  | mounts (mountpoints : List Nat)

/-- Outcome of processing one mountpoint inside the loop. -/
inductive MpOutcome where
  | noContainerRoot
  | noData
  | producedFiles
  | raisesRuntime
  | raisesOther

/-- How Python control leaves a block. -/
inductive PyFlow where
  | normal
  | runtimeExc
  | otherExc
deriving DecidableEq, Repr

/-- The per-mountpoint for loop: the first exception aborts it, skips and
successes continue. -/
def mpLoopFlow : List MpOutcome → PyFlow
  | [] => .normal
  | .raisesRuntime :: _ => .runtimeExc
  | .raisesOther :: _ => .otherExc
  | .noContainerRoot :: rest => mpLoopFlow rest
  | .noData :: rest => mpLoopFlow rest
  | .producedFiles :: rest => mpLoopFlow rest

/-- The try block of the per-disk body common to container_drift and
container_export: returns how many umount calls the try block itself makes
and how control leaves it.  When mount returns no mountpoints the block
calls bd.umount() and executes continue. -/
def tryBody (m : MountResult) (steps : List MpOutcome) : Nat × PyFlow :=
  match m with
  | .raisesRuntime => (0, .runtimeExc)
  | .mounts mountpoints =>
      if mountpoints.isEmpty then (1, .normal)
      else (0, mpLoopFlow steps)

/-- except RuntimeError: log and fall through. -/
def catchRuntime : PyFlow → PyFlow
  | .runtimeExc => .normal
  | f => f

/-- except RuntimeError plus except Exception: log and fall through. -/
def catchAll : PyFlow → PyFlow
  | _ => .normal

/-- Per-disk body of container_drift: try block, except RuntimeError, and a
finally block that always calls bd.umount() once more. -/
def driftDiskUmountCalls (m : MountResult) (steps : List MpOutcome) :
    Nat × PyFlow :=
  let (n, flow) := tryBody m steps
  (n + 1, catchRuntime flow)

/-- Per-disk body of container_export: same shape with both except clauses. -/
def exportDiskUmountCalls (m : MountResult) (steps : List MpOutcome) :
    Nat × PyFlow :=
  let (n, flow) := tryBody m steps
  (n + 1, catchAll flow)

/-- Per-input actions of the yara task loop. -/
inductive YaraAction where
  | notDiskImage     -- scanned directly, no mount
  | skippedNoPath    -- input without a path, continue
  | mountRaises      -- setup or mount raised RuntimeError, aborts the loop
  | mounts           -- mounted; bd appended to disks_mounted
deriving DecidableEq, Repr

/-- disks_mounted as built by the yara task loop starting at input index i:
every successfully mounted disk is appended once, and a RuntimeError aborts
the whole loop (the try wraps the loop). -/
def yaraMountedIndices : List YaraAction → Nat → List Nat
  | [], _ => []
  | .mounts :: rest, i => i :: yaraMountedIndices rest (i + 1)
  | .mountRaises :: _, _ => []
  | .notDiskImage :: rest, i => yaraMountedIndices rest (i + 1)
  | .skippedNoPath :: rest, i => yaraMountedIndices rest (i + 1)

/-- The finally block of the yara task unmounts each entry of disks_mounted
exactly once, so the number of umount calls for disk i is its number of
occurrences in disks_mounted. -/
def yaraUmountCalls (disks : List YaraAction) (i : Nat) : Nat :=
  (yaraMountedIndices disks 0).count i

/-- Disk i reached the Mounted state: its loop iteration ran (no earlier
iteration aborted the loop) and its mount succeeded. -/
def reachedMounted (disks : List YaraAction) (i : Nat) : Prop :=
  disks.get? i = some .mounts ∧
    ∀ j, j < i → disks.get? j ≠ some .mountRaises

end Mounts

end OpenRelik

/-! ## Theorems -/

namespace OpenRelik

/-- Two booleans agreeing on truth are equal. -/
theorem bool_eq_of_iff {a b : Bool} (h : a = true ↔ b = true) : a = b := by
  cases a <;> cases b <;> simp_all

theorem wsN_of_lowN {m n : Nat} (h : lowN m = lowN n) : wsN m = wsN n := by
  apply bool_eq_of_iff
  unfold lowN at h
  simp only [wsN, Bool.or_eq_true, beq_iff_eq]
  split at h <;> split at h <;>
    simp only [Bool.and_eq_true, decide_eq_true_eq] at * <;> omega

theorem wordN_of_lowN {m n : Nat} (h : lowN m = lowN n) : wordN m = wordN n := by
  apply bool_eq_of_iff
  unfold lowN at h
  simp only [wordN, Bool.or_eq_true, Bool.and_eq_true, beq_iff_eq, decide_eq_true_eq]
  split at h <;> split at h <;>
    simp only [Bool.and_eq_true, decide_eq_true_eq] at * <;> omega

theorem beq_quote_of_lowN {m n : Nat} (h : lowN m = lowN n) :
    (m == 34) = (n == 34) := by
  apply bool_eq_of_iff
  unfold lowN at h
  simp only [beq_iff_eq]
  split at h <;> split at h <;>
    simp only [Bool.and_eq_true, decide_eq_true_eq] at * <;> omega

theorem beq_nl_of_lowN {m n : Nat} (h : lowN m = lowN n) :
    (m == 10) = (n == 10) := by
  apply bool_eq_of_iff
  unfold lowN at h
  simp only [beq_iff_eq]
  split at h <;> split at h <;>
    simp only [Bool.and_eq_true, decide_eq_true_eq] at * <;> omega

theorem beq_lit_of_lowN {m n a : Nat} (h : lowN m = lowN n)
    (h1 : (65 ≤ a && a ≤ 90) = false) (h2 : (97 ≤ a && a ≤ 122) = false) :
    (m == a) = (n == a) := by
  apply bool_eq_of_iff
  unfold lowN at h
  simp only [Bool.and_eq_true, Bool.and_eq_false_iff, decide_eq_true_eq,
    decide_eq_false_iff_not] at h1 h2
  simp only [beq_iff_eq]
  split at h <;> split at h <;>
    simp only [Bool.and_eq_true, decide_eq_true_eq] at * <;> omega

theorem ciN_of_lowN (p : Nat) {m n : Nat} (h : lowN m = lowN n) :
    ciN p m = ciN p n := by
  unfold ciN
  rw [h]

theorem ciStartsWith_caseEq (w : List Char) :
    ∀ {cs ds : List Char}, caseEqChars cs ds = true →
      ciStartsWith w cs = ciStartsWith w ds := by
  induction w with
  | nil => intro cs ds _; rfl
  | cons p ps ih =>
    intro cs ds h
    cases cs with
    | nil =>
      cases ds with
      | nil => rfl
      | cons d ds => simp [caseEqChars] at h
    | cons c cs =>
      cases ds with
      | nil => simp [caseEqChars] at h
      | cons d ds =>
        simp only [caseEqChars, Bool.and_eq_true, beq_iff_eq] at h
        simp only [ciStartsWith, ciC]
        rw [ciN_of_lowN p.toNat h.1, ih h.2]

theorem altAny_caseEq (alts : List String) {cs ds : List Char}
    (h : caseEqChars cs ds = true) :
    (alts.any fun w => ciStartsWith w.toList cs) =
      (alts.any fun w => ciStartsWith w.toList ds) := by
  induction alts with
  | nil => rfl
  | cons a as ih =>
    simp only [List.any_cons, ih, ciStartsWith_caseEq a.toList h]

theorem matchSeq_caseEq :
    ∀ {cs ds : List Char}, caseEqChars cs ds = true →
      ∀ items, itemsCaseBlind items = true → matchSeq cs items = matchSeq ds items := by
  intro cs
  induction cs with
  | nil =>
    intro ds h items _
    cases ds with
    | nil => rfl
    | cons d ds => simp [caseEqChars] at h
  | cons c cs ih =>
    intro ds h items
    cases ds with
    | nil => simp [caseEqChars] at h
    | cons d ds =>
      simp only [caseEqChars, Bool.and_eq_true, beq_iff_eq] at h
      obtain ⟨hcd, htail⟩ := h
      induction items with
      | nil => intro _; rfl
      | cons item rest ihItems =>
        intro hblind
        have hb : RItem.caseBlind item = true ∧ itemsCaseBlind rest = true := by
          simpa [itemsCaseBlind] using hblind
        have hrest : matchSeq cs rest = matchSeq ds rest :=
          ih htail rest hb.2
        cases item with
        | lit a =>
          have hba : (65 ≤ a && a ≤ 90) = false ∧ (97 ≤ a && a ≤ 122) = false := by
            have := hb.1
            simp only [RItem.caseBlind, Bool.and_eq_true, Bool.not_eq_true'] at this
            exact this
          simp only [matchSeq, matchCons]
          rw [beq_lit_of_lowN hcd hba.1 hba.2, hrest]
        | ci a =>
          simp only [matchSeq, matchCons]
          rw [ciN_of_lowN a hcd, hrest]
        | wsStar =>
          have e1 := ihItems hb.2
          have e3 : matchSeq cs (.wsStar :: rest) = matchSeq ds (.wsStar :: rest) := by
            apply ih htail
            simpa [itemsCaseBlind, RItem.caseBlind] using hb.2
          simp only [matchSeq] at e1 ⊢
          simp only [matchCons]
          rw [e1, wsN_of_lowN hcd, e3]
        | wsPlus =>
          have e3 : matchSeq cs (.wsPlus :: rest) = matchSeq ds (.wsPlus :: rest) := by
            apply ih htail
            simpa [itemsCaseBlind, RItem.caseBlind] using hb.2
          simp only [matchSeq, matchCons]
          rw [wsN_of_lowN hcd, hrest, e3]
        | wsQuoteStar =>
          have e1 := ihItems hb.2
          have e3 : matchSeq cs (.wsQuoteStar :: rest) = matchSeq ds (.wsQuoteStar :: rest) := by
            apply ih htail
            simpa [itemsCaseBlind, RItem.caseBlind] using hb.2
          simp only [matchSeq] at e1 ⊢
          simp only [matchCons]
          rw [e1, wsN_of_lowN hcd, beq_quote_of_lowN hcd, e3]
        | notQuotePlus =>
          have e3 : matchSeq cs (.notQuotePlus :: rest) = matchSeq ds (.notQuotePlus :: rest) := by
            apply ih htail
            simpa [itemsCaseBlind, RItem.caseBlind] using hb.2
          simp only [matchSeq, matchCons]
          rw [beq_quote_of_lowN hcd, hrest, e3]
        | nwb =>
          have e1 := ihItems hb.2
          simp only [matchSeq] at e1 ⊢
          simp only [matchCons]
          rw [e1, wordN_of_lowN hcd]
        | eol =>
          have e1 := ihItems hb.2
          simp only [matchSeq] at e1 ⊢
          simp only [matchCons]
          rw [e1, beq_nl_of_lowN hcd]
        | altEnd alts =>
          simp only [matchSeq, matchCons]
          apply altAny_caseEq
          simp [caseEqChars, hcd, htail]

theorem afterNl_caseEq :
    ∀ {cs ds : List Char}, caseEqChars cs ds = true →
      ∀ items, itemsCaseBlind items = true → afterNl items cs = afterNl items ds := by
  intro cs
  induction cs with
  | nil =>
    intro ds h items _
    cases ds with
    | nil => rfl
    | cons d ds => simp [caseEqChars] at h
  | cons c cs ih =>
    intro ds h items hblind
    cases ds with
    | nil => simp [caseEqChars] at h
    | cons d ds =>
      simp only [caseEqChars, Bool.and_eq_true, beq_iff_eq] at h
      simp only [afterNl]
      rw [beq_nl_of_lowN h.1, matchSeq_caseEq h.2 items hblind, ih h.2 items hblind]

theorem searchLineStarts_caseEq {cs ds : List Char} (h : caseEqChars cs ds = true)
    (items : List RItem) (hblind : itemsCaseBlind items = true) :
    searchLineStarts items cs = searchLineStarts items ds := by
  unfold searchLineStarts
  rw [matchSeq_caseEq h items hblind, afterNl_caseEq h items hblind]

theorem searchTails_caseEq :
    ∀ {cs ds : List Char}, caseEqChars cs ds = true →
      ∀ items, itemsCaseBlind items = true → searchTails items cs = searchTails items ds := by
  intro cs
  induction cs with
  | nil =>
    intro ds h items _
    cases ds with
    | nil => rfl
    | cons d ds => simp [caseEqChars] at h
  | cons c cs ih =>
    intro ds h items hblind
    cases ds with
    | nil => simp [caseEqChars] at h
    | cons d ds =>
      have h' := h
      simp only [caseEqChars, Bool.and_eq_true, beq_iff_eq] at h
      simp only [searchTails]
      rw [matchSeq_caseEq h' items hblind, ih h.2 items hblind]

theorem afterNl_append_nl (items : List RItem) :
    ∀ (pre post : List Char), matchSeq post items = true →
      afterNl items (pre ++ Char.ofNat 10 :: post) = true := by
  intro pre post h
  induction pre with
  | nil => simp [afterNl, h]
  | cons c pre ih => simp [afterNl, ih]

theorem searchLineStarts_append_nl (items : List RItem) (pre post : List Char)
    (h : matchSeq post items = true) :
    searchLineStarts items (pre ++ Char.ofNat 10 :: post) = true := by
  unfold searchLineStarts
  rw [afterNl_append_nl items pre post h]
  simp

end OpenRelik

namespace OpenRelik

/-- C7 (amended): in the sshd analyzer all three rule patterns, and in the
redis analyzer the bind pattern (multiline) and the default-port pattern
(unanchored), match case-insensitively: their search results are unchanged
when the config text is replaced by any text equal to it up to ASCII letter
case.  Patterns anchored at a line start match right after any newline.
The redis logfile safe pattern however is not case-blind: it is compiled
without IGNORECASE, so the absence-of-safe-pattern finding can fire although
the directive is present in another letter case. -/
theorem config_pattern_case_rules :
    (∀ s t : List Char, caseEqChars s t = true →
      searchLineStarts Sshd.permit_root_login_re s =
          searchLineStarts Sshd.permit_root_login_re t ∧
        searchLineStarts Sshd.password_authentication_re s =
          searchLineStarts Sshd.password_authentication_re t ∧
        searchLineStarts Sshd.permit_empty_passwords_re s =
          searchLineStarts Sshd.permit_empty_passwords_re t ∧
        searchLineStarts Redis.bind_everywhere_re s =
          searchLineStarts Redis.bind_everywhere_re t ∧
        searchTails Redis.default_port_re s =
          searchTails Redis.default_port_re t) ∧
    (∀ items pre post, matchSeq post items = true →
      searchLineStarts items (pre ++ Char.ofNat 10 :: post) = true) ∧
    itemsCaseBlind Redis.missing_logs_re = false := by
  refine ⟨fun s t h => ?_, searchLineStarts_append_nl, by decide⟩
  exact ⟨searchLineStarts_caseEq h _ (by decide),
    searchLineStarts_caseEq h _ (by decide),
    searchLineStarts_caseEq h _ (by decide),
    searchLineStarts_caseEq h _ (by decide),
    searchTails_caseEq h _ (by decide)⟩

/-- Witness for C7 (amended): concrete instances of the case-invariance and
the line-start matching. -/
theorem config_pattern_case_rules_witness :
    (searchLineStarts Redis.bind_everywhere_re "BIND \"0.0.0.0\"".toList =
      searchLineStarts Redis.bind_everywhere_re "bind \"0.0.0.0\"".toList) ∧
    (searchLineStarts Sshd.permit_root_login_re
      ("#".toList ++ Char.ofNat 10 :: "PermitRootLogin yes".toList) = true) := by
  constructor
  · exact (config_pattern_case_rules.1 _ _ (by decide)).2.2.2.1
  · exact config_pattern_case_rules.2.1 _ _ _ (by decide)

/-- C7 (counterexample): an upper-case LOGFILE directive is the same text as
a matching lower-case logfile directive up to letter case, the lower-case
text satisfies the safe pattern, yet the analyzer still emits the
"Log destination not configured" finding on the upper-case text. -/
theorem redis_logfile_case_sensitive :
    caseEqChars "LOGFILE \"/var/log/redis.log\"".toList
        "logfile \"/var/log/redis.log\"".toList = true ∧
    searchLineStarts Redis.missing_logs_re
        "logfile \"/var/log/redis.log\"".toList = true ∧
    (Redis.analyze_config "LOGFILE \"/var/log/redis.log\"").bullets =
      [⟨"Log destination not configured", 1⟩] := by
  decide

/-- C8: on an SSHD config consisting of the three directives
PermitRootLogin yes, PasswordAuthentication yes and PermitEmptyPasswords yes
on three lines, the analyzer reports exactly three bullets, priority HIGH
and the summary "Insecure SSHD configuration found". -/
theorem sshd_three_findings_scenario :
    (Sshd.analyze_config
        "PermitRootLogin yes\nPasswordAuthentication yes\nPermitEmptyPasswords yes").bullets.length = 3 ∧
    (Sshd.analyze_config
        "PermitRootLogin yes\nPasswordAuthentication yes\nPermitEmptyPasswords yes").priority = some .HIGH ∧
    (Sshd.analyze_config
        "PermitRootLogin yes\nPasswordAuthentication yes\nPermitEmptyPasswords yes").summary =
      "Insecure SSHD configuration found" := by
  decide

end OpenRelik

namespace OpenRelik

theorem yaraMountedIndices_ge :
    ∀ (disks : List Mounts.YaraAction) (start j : Nat),
      j ∈ Mounts.yaraMountedIndices disks start → start ≤ j := by
  intro disks
  induction disks with
  | nil => intro start j h; simp [Mounts.yaraMountedIndices] at h
  | cons d rest ih =>
    intro start j h
    cases d with
    | mounts =>
      simp only [Mounts.yaraMountedIndices, List.mem_cons] at h
      rcases h with h | h
      · omega
      · have := ih (start + 1) j h
        omega
    | mountRaises => simp [Mounts.yaraMountedIndices] at h
    | notDiskImage =>
      have := ih (start + 1) j h
      omega
    | skippedNoPath =>
      have := ih (start + 1) j h
      omega

theorem yaraMountedIndices_count :
    ∀ (disks : List Mounts.YaraAction) (i start : Nat),
      disks.get? i = some .mounts →
      (∀ j, j < i → disks.get? j ≠ some .mountRaises) →
      (Mounts.yaraMountedIndices disks start).count (start + i) = 1 := by
  intro disks
  induction disks with
  | nil => intro i start h _; simp at h
  | cons d rest ih =>
    intro i start h hnr
    cases i with
    | zero =>
      simp only [List.get?] at h
      injection h with h
      subst h
      simp only [Mounts.yaraMountedIndices, Nat.add_zero, List.count_cons]
      have hnot : (Mounts.yaraMountedIndices rest (start + 1)).count start = 0 := by
        rw [List.count_eq_zero]
        intro hmem
        have := yaraMountedIndices_ge rest (start + 1) start hmem
        omega
      simp [hnot]
    | succ i =>
      have hd : d ≠ .mountRaises := by
        intro hEq
        exact hnr 0 (Nat.succ_pos i) (by simp [hEq])
      have hrest : rest.get? i = some .mounts := h
      have hnr' : ∀ j, j < i → rest.get? j ≠ some .mountRaises := by
        intro j hj
        exact hnr (j + 1) (by omega)
      have harith : start + (i + 1) = (start + 1) + i := by omega
      cases d with
      | mounts =>
        simp only [Mounts.yaraMountedIndices, List.count_cons]
        rw [harith, ih i (start + 1) hrest hnr']
        have hne : (start + 1 + i == start) = false :=
          beq_eq_false_iff_ne.mpr (by omega)
        simp [hne]
        omega
      | mountRaises => exact absurd rfl hd
      | notDiskImage =>
        simp only [Mounts.yaraMountedIndices]
        rw [harith, ih i (start + 1) hrest hnr']
      | skippedNoPath =>
        simp only [Mounts.yaraMountedIndices]
        rw [harith, ih i (start + 1) hrest hnr']

/-- C1 (amended): for a disk that reaches the Mounted state, the yara worker
calls umount exactly once on every exit path; container_drift and
container_export call umount exactly once on every exit path except when
mount() returns an empty mountpoint list, where umount is called twice: once
explicitly before the continue statement and once more by the finally
block. -/
theorem umount_calls_per_mounted_disk :
    (∀ (mps : List Nat) (steps : List Mounts.MpOutcome),
      (Mounts.driftDiskUmountCalls (.mounts mps) steps).1 =
        if mps.isEmpty then 2 else 1) ∧
    (∀ (mps : List Nat) (steps : List Mounts.MpOutcome),
      (Mounts.exportDiskUmountCalls (.mounts mps) steps).1 =
        if mps.isEmpty then 2 else 1) ∧
    (∀ (disks : List Mounts.YaraAction) (i : Nat),
      Mounts.reachedMounted disks i → Mounts.yaraUmountCalls disks i = 1) := by
  refine ⟨?_, ?_, ?_⟩
  · intro mps steps
    cases mps <;> simp [Mounts.driftDiskUmountCalls, Mounts.tryBody]
  · intro mps steps
    cases mps <;> simp [Mounts.exportDiskUmountCalls, Mounts.tryBody]
  · intro disks i h
    obtain ⟨hm, hnr⟩ := h
    have := yaraMountedIndices_count disks i 0 hm hnr
    simpa [Mounts.yaraUmountCalls] using this

/-- Witness for C1 (amended): a drift disk with one mountpoint processed
normally unmounts once, and the single mounted disk of a yara run unmounts
once. -/
theorem umount_calls_per_mounted_disk_witness :
    (Mounts.driftDiskUmountCalls (.mounts [0]) [.producedFiles]).1 = 1 ∧
    Mounts.yaraUmountCalls [.mounts] 0 = 1 := by
  constructor
  · rw [umount_calls_per_mounted_disk.1 [0] [.producedFiles]]
    decide
  · exact umount_calls_per_mounted_disk.2.2 [.mounts] 0
      ⟨by decide, fun j hj => by omega⟩

/-- C1 (counterexample): in container_drift, a disk whose mount() succeeds
but returns no mountpoints has umount invoked twice, not exactly once: the
explicit call before continue and the finally block both run. -/
theorem drift_no_mountpoints_double_umount :
    (Mounts.driftDiskUmountCalls (.mounts []) []).1 = 2 ∧
    (Mounts.driftDiskUmountCalls (.mounts []) []).1 ≠ 1 := by
  decide

/-- C2: the floss task raises the fatal error "FLOSS found no strings."
whenever the line count of the last output file is zero, even when earlier
input files produced strings: with per-input extracted string counts 5 and
0 the task raises although the total is 5, not 0. -/
theorem floss_raises_despite_nonzero_total :
    Floss.raisesNoStrings [5, 0] = true ∧
    Floss.totalStrings [5, 0] = 5 ∧
    Floss.raisesNoStrings [0, 5] = false ∧
    Floss.raisesNoStrings [0, 0] = true ∧
    Floss.raisesNoStrings [] = true := by
  decide

end OpenRelik

namespace OpenRelik

theorem dictInsert_ne_nil (reg : List (String × String)) (k v : String) :
    Jenkins.dictInsert reg k v ≠ [] := by
  cases reg with
  | nil => simp [Jenkins.dictInsert]
  | cons p rest =>
    simp only [Jenkins.dictInsert]
    split <;> simp

theorem registry_foldl_ne_nil :
    ∀ (creds : List (String × String)) (reg : List (String × String)), reg ≠ [] →
      List.foldl (fun reg cred => Jenkins.dictInsert reg cred.2 cred.1) reg creds ≠ [] := by
  intro creds
  induction creds with
  | nil => intro reg h; simpa using h
  | cons c rest ih =>
    intro reg _
    simp only [List.foldl_cons]
    exact ih _ (dictInsert_ne_nil reg c.2 c.1)

theorem credentialsRegistry_eq_nil_iff (creds : List (String × String)) :
    Jenkins.credentialsRegistry creds = [] ↔ creds = [] := by
  constructor
  · intro h
    cases creds with
    | nil => rfl
    | cons c rest =>
      exfalso
      apply registry_foldl_ne_nil rest (Jenkins.dictInsert [] c.2 c.1)
        (dictInsert_ne_nil [] c.2 c.1)
      simpa [Jenkins.credentialsRegistry, List.foldl_cons] using h
  · intro h
    subst h
    rfl

/-- C3: the Jenkins analyzer report priority is CRITICAL exactly when the
external bruteforce run cracked at least one password hash; with nothing
cracked it is MEDIUM when credentials were extracted or a version other
than Unknown was extracted, LOW when neither exists, and never CRITICAL. -/
theorem jenkins_priority_rule (version : Option String)
    (credentials weak : List (String × String)) :
    (weak ≠ [] →
      (Jenkins.analyze_jenkins version credentials weak).priority = some .CRITICAL) ∧
    (weak = [] → (credentials ≠ [] ∨ Jenkins.normVersion version ≠ "Unknown") →
      (Jenkins.analyze_jenkins version credentials weak).priority = some .MEDIUM) ∧
    (weak = [] → credentials = [] → Jenkins.normVersion version = "Unknown" →
      (Jenkins.analyze_jenkins version credentials weak).priority = some .LOW) ∧
    (weak = [] →
      (Jenkins.analyze_jenkins version credentials weak).priority ≠ some .CRITICAL) := by
  refine ⟨?_, ?_, ?_, ?_⟩
  · intro hw
    have hwE : weak.isEmpty = false := by
      cases weak with
      | nil => exact absurd rfl hw
      | cons a l => rfl
    simp [Jenkins.analyze_jenkins, hwE]
  · intro hw hcond
    subst hw
    rcases hcond with hc | hv
    · have hne : Jenkins.credentialsRegistry credentials ≠ [] := by
        intro h
        exact hc ((credentialsRegistry_eq_nil_iff credentials).mp h)
      have hE : (Jenkins.credentialsRegistry credentials).isEmpty = false := by
        cases h : Jenkins.credentialsRegistry credentials with
        | nil => exact absurd h hne
        | cons a l => rfl
      simp [Jenkins.analyze_jenkins, hE]
    · simp [Jenkins.analyze_jenkins, hv]
  · intro hw hc hv
    subst hw
    subst hc
    simp [Jenkins.analyze_jenkins, Jenkins.credentialsRegistry, hv]
  · intro hw
    subst hw
    simp only [Jenkins.analyze_jenkins]
    split
    · simp at *
    · split <;> simp

/-- C4: the Jenkins credential join maps a password hash back to a username
through the registry dict, so a hash appearing for several usernames keeps
only the last one; on credentials [(alice, hashA)] with cracked results
[(hashA, pw123)] the report has exactly one per-password (level two) bullet,
naming alice and pw123. -/
theorem jenkins_credential_join :
    (∀ (creds : List (String × String)) (u h : String),
      Jenkins.dictGet (Jenkins.credentialsRegistry (creds ++ [(u, h)])) h = some u) ∧
    ((Jenkins.analyze_jenkins none [("alice", "hashA")] [("hashA", "pw123")]).bullets.filter
        (fun b => b.level == 2) =
      [⟨"User \"alice\" with password \"pw123\"", 2⟩]) := by
  constructor
  · have hself : ∀ (reg : List (String × String)) (k v : String),
        Jenkins.dictGet (Jenkins.dictInsert reg k v) k = some v := by
      intro reg
      induction reg with
      | nil => intro k v; simp [Jenkins.dictInsert, Jenkins.dictGet]
      | cons p rest ih =>
        intro k v
        simp only [Jenkins.dictInsert]
        by_cases hk : p.1 = k
        · simp [Jenkins.dictGet, hk]
        · simp [Jenkins.dictGet, hk, ih]
    intro creds u h
    have : Jenkins.credentialsRegistry (creds ++ [(u, h)]) =
        Jenkins.dictInsert (Jenkins.credentialsRegistry creds) h u := by
      simp [Jenkins.credentialsRegistry, List.foldl_append]
    rw [this, hself]
  · decide

end OpenRelik

namespace OpenRelik

theorem recordsOfListField_malformed (cid ct : Drift.JValue) (status : String)
    (v : Option Drift.JValue) (h : Drift.listFieldMalformed v) :
    Drift.recordsOfListField cid ct status v = .ok [] := by
  cases v with
  | none => rfl
  | some x =>
    cases x with
    | null => rfl
    | bool b => simp [Drift.recordsOfListField, Drift.JValue.isList]
    | num n => simp [Drift.recordsOfListField, Drift.JValue.isList]
    | str s => simp [Drift.recordsOfListField, Drift.JValue.isList]
    | obj fields => simp [Drift.recordsOfListField, Drift.JValue.isList]
    | list xs =>
      cases xs with
      | nil => rfl
      | cons a l => exact absurd h (by simp [Drift.listFieldMalformed])

theorem flattenItem_malformed {item : Drift.JValue}
    (h : Drift.entryMalformed item) : Drift.flattenItem item = .ok [] := by
  obtain ⟨fields, rfl, h1, h2⟩ := h
  simp only [Drift.flattenItem]
  rw [recordsOfListField_malformed _ _ _ _ h1, recordsOfListField_malformed _ _ _ _ h2]
  rfl

theorem flattenItems_skip {item : Drift.JValue}
    (hitem : Drift.flattenItem item = .ok []) :
    ∀ pre post : List Drift.JValue,
      Drift.flattenItems (pre ++ item :: post) = Drift.flattenItems (pre ++ post) := by
  intro pre
  induction pre with
  | nil =>
    intro post
    cases h : Drift.flattenItems post <;>
      simp [Drift.flattenItems, hitem, h, Bind.bind, Except.bind, Pure.pure, Except.pure]
  | cons p pre ih =>
    intro post
    cases h : Drift.flattenItem p <;>
      simp [Drift.flattenItems, h, ih, Bind.bind, Except.bind]

theorem flattern_eq_items (l : List Drift.JValue) :
    Drift.flattern_container_drift_data l = Drift.flattenItems l := by
  cases l with
  | nil => rfl
  | cons x xs => simp [Drift.flattern_container_drift_data]

/-- C5: for every entry of the top-level drift list, a missing, None,
non-list or empty value under AddedOrModified or InaccessibleFiles produces
zero records from that key and no exception, and an entry whose two keys are
both malformed contributes nothing: well-formed entries at the other
positions of the list are converted exactly as if the malformed entry were
absent. -/
theorem drift_malformed_fields_safe :
    (∀ (cid ct : Drift.JValue) (status : String) (v : Option Drift.JValue),
      Drift.listFieldMalformed v →
        Drift.recordsOfListField cid ct status v = .ok []) ∧
    (∀ (pre post : List Drift.JValue) (item : Drift.JValue),
      Drift.entryMalformed item →
        Drift.flattern_container_drift_data (pre ++ item :: post) =
          Drift.flattern_container_drift_data (pre ++ post)) := by
  refine ⟨recordsOfListField_malformed, fun pre post item h => ?_⟩
  rw [flattern_eq_items, flattern_eq_items]
  exact flattenItems_skip (flattenItem_malformed h) pre post

/-- Witness for C5: a string value under AddedOrModified yields no records
and no error, and an entry with a None AddedOrModified and a string
InaccessibleFiles drops out of a list that also has a well-formed entry. -/
theorem drift_malformed_fields_safe_witness :
    Drift.recordsOfListField (.str "c1") (.str "containerd")
        "File added or modified" (some (.str "junk")) = .ok [] ∧
    Drift.flattern_container_drift_data
        [.obj [("ContainerID", .str "a"), ("AddedOrModified", .null)],
         .obj [("ContainerID", .str "b"),
               ("AddedOrModified", .list [.obj [("file_name", .str "f")]])]] =
      Drift.flattern_container_drift_data
        [.obj [("ContainerID", .str "b"),
               ("AddedOrModified", .list [.obj [("file_name", .str "f")]])]] := by
  constructor
  · exact drift_malformed_fields_safe.1 _ _ _ _ trivial
  · exact drift_malformed_fields_safe.2 []
      [.obj [("ContainerID", .str "b"),
             ("AddedOrModified", .list [.obj [("file_name", .str "f")]])]]
      _ ⟨[("ContainerID", .str "a"), ("AddedOrModified", .null)], rfl, trivial, trivial⟩

end OpenRelik

namespace OpenRelik

theorem run_container_drift_data_eq_append (cd dk : List Drift.DriftRecord) :
    Drift.run_container_drift_data cd dk = cd ++ dk := by
  cases cd <;> cases dk <;> simp [Drift.run_container_drift_data]

theorem create_task_report_two_files (l : List Drift.DriftRecord)
    (hlen : l.length = 7) :
    (Drift.create_drift_output_files "/output" l).1.map Drift.OutFileDesc.extension =
        ["json", "csv"] ∧
    ∃ r, Drift.create_task_report (Drift.create_drift_output_files "/output" l).1
        (Drift.create_drift_output_files "/output" l).2 = .ok r ∧
      (⟨"2 output files created", 1⟩ : Bullet) ∈ r.bullets ∧
      (⟨"7 files added, modified, or deleted", 1⟩ : Bullet) ∈ r.bullets := by
  have hne : l.isEmpty = false := by
    cases l with
    | nil => simp at hlen
    | cons a rest => rfl
  have hfiles : Drift.create_drift_output_files "/output" l =
      ([⟨"/output/container_drift.json", "container_drift", "json"⟩,
        ⟨"/output/container_drift.csv", "container_drift", "csv"⟩],
       [("/output/container_drift.json", .jsonRecords l),
        ("/output/container_drift.csv",
          .csvTable Drift.driftRecordKeys (l.map Drift.DriftRecord.values))]) := by
    rw [Drift.create_drift_output_files, if_neg (by simp [hne])]
    have hpj : Drift.create_output_file "/output" "container_drift" "json" =
        ⟨"/output/container_drift.json", "container_drift", "json"⟩ := by decide
    have hpc : Drift.create_output_file "/output" "container_drift" "csv" =
        ⟨"/output/container_drift.csv", "container_drift", "csv"⟩ := by decide
    rw [hpj, hpc]
  rw [hfiles]
  refine ⟨by rfl, ?_⟩
  have hcount : Drift.countJsonRecords
      [("/output/container_drift.json", .jsonRecords l),
       ("/output/container_drift.csv",
         .csvTable Drift.driftRecordKeys (l.map Drift.DriftRecord.values))]
      [⟨"/output/container_drift.json", "container_drift", "json"⟩,
       ⟨"/output/container_drift.csv", "container_drift", "csv"⟩] = .ok 7 := by
    rw [Drift.countJsonRecords, if_neg (by decide), if_neg (by decide)]
    rw [show List.lookup "/output/container_drift.json"
        [("/output/container_drift.json",
            Drift.FileContent.jsonRecords l),
         ("/output/container_drift.csv",
            Drift.FileContent.csvTable Drift.driftRecordKeys
              (l.map Drift.DriftRecord.values))] =
        some (Drift.FileContent.jsonRecords l) from by simp [List.lookup]]
    rw [Drift.countJsonRecords, if_neg (by decide), if_pos (by decide)]
    rw [show Drift.countJsonRecords
        [("/output/container_drift.json",
            Drift.FileContent.jsonRecords l),
         ("/output/container_drift.csv",
            Drift.FileContent.csvTable Drift.driftRecordKeys
              (l.map Drift.DriftRecord.values))] [] = .ok 0 from rfl]
    simp [Except.map, hlen]
  refine ⟨{ title := "Container Drift Report",
            bullets := [⟨"2 output files created", 1⟩,
                        ⟨"7 files added, modified, or deleted", 1⟩] }, ?_, by simp, by simp⟩
  simp only [Drift.create_task_report]
  rw [hcount]
  rfl

/-- C6: for a drift run whose containerd invocation yields 3 flattened
records and whose docker invocation yields 4, the combined list is exactly
the containerd records followed by the docker records, has length 7, two
output files are created from it (one json, one csv, in that order), and
the task report carries the bullets "2 output files created" and
"7 files added, modified, or deleted". -/
theorem drift_combined_records_scenario (cd dk : List Drift.DriftRecord)
    (hcd : cd.length = 3) (hdk : dk.length = 4) :
    Drift.run_container_drift_data cd dk = cd ++ dk ∧
    (Drift.run_container_drift_data cd dk).length = 7 ∧
    ((Drift.create_drift_output_files "/output"
        (Drift.run_container_drift_data cd dk)).1.map Drift.OutFileDesc.extension =
      ["json", "csv"]) ∧
    ∃ r, Drift.create_task_report
        (Drift.create_drift_output_files "/output" (Drift.run_container_drift_data cd dk)).1
        (Drift.create_drift_output_files "/output" (Drift.run_container_drift_data cd dk)).2 =
          .ok r ∧
      (⟨"2 output files created", 1⟩ : Bullet) ∈ r.bullets ∧
      (⟨"7 files added, modified, or deleted", 1⟩ : Bullet) ∈ r.bullets := by
  have hap := run_container_drift_data_eq_append cd dk
  have hlen : (Drift.run_container_drift_data cd dk).length = 7 := by
    rw [hap]
    simp [hcd, hdk]
  obtain ⟨h1, h2⟩ := create_task_report_two_files (Drift.run_container_drift_data cd dk) hlen
  exact ⟨hap, hlen, h1, h2⟩

/-- Witness for C6: three containerd records and four docker records built
from placeholders combine to a list of length 7. -/
theorem drift_combined_records_scenario_witness :
    (Drift.run_container_drift_data
        (List.replicate 3
          ⟨.str "c1", .str "containerd", "File added or modified", .str "a",
            .str "/a", "1", .str "file", .str "-", .str "-", .str "-", .str "-",
            .str "-"⟩)
        (List.replicate 4
          ⟨.str "d1", .str "docker", "File deleted", .str "b", .str "/b", "2",
            .str "file", .str "-", .str "-", .str "-", .str "-", .str "-"⟩)).length = 7 :=
  (drift_combined_records_scenario _ _ (by simp) (by simp)).2.1

end OpenRelik

namespace OpenRelik

/-- Witness for C3: cracked password gives CRITICAL, credentials alone give
MEDIUM, nothing gives LOW. -/
theorem jenkins_priority_rule_witness :
    (Jenkins.analyze_jenkins (some "2.401") [("alice", "hashA")]
        [("hashA", "pw")]).priority = some .CRITICAL ∧
    (Jenkins.analyze_jenkins none [("alice", "hashA")] []).priority = some .MEDIUM ∧
    (Jenkins.analyze_jenkins none [] []).priority = some .LOW := by
  refine ⟨(jenkins_priority_rule (some "2.401") [("alice", "hashA")]
      [("hashA", "pw")]).1 (by decide), ?_, ?_⟩
  · exact (jenkins_priority_rule none [("alice", "hashA")] []).2.1 rfl
      (Or.inl (by decide))
  · exact (jenkins_priority_rule none [] []).2.2.1 rfl rfl (by decide)

theorem jenkins_rank_eq (version : Option String)
    (credentials weak : List (String × String)) :
    (Jenkins.analyze_jenkins version credentials weak).rank =
      if weak = [] then
        (if credentials = [] ∧ Jenkins.normVersion version = "Unknown" then 1 else 2)
      else 4 := by
  by_cases hw : weak = []
  · subst hw
    by_cases hcv : credentials = [] ∧ Jenkins.normVersion version = "Unknown"
    · obtain ⟨hc, hv⟩ := hcv
      subst hc
      simp [Jenkins.analyze_jenkins, Jenkins.credentialsRegistry, hv,
        Report.rank, Priority.rank]
    · rcases not_and_or.mp hcv with hc | hv
      · have hne : Jenkins.credentialsRegistry credentials ≠ [] := by
          intro h
          exact hc ((credentialsRegistry_eq_nil_iff credentials).mp h)
        have hE : (Jenkins.credentialsRegistry credentials).isEmpty = false := by
          cases h : Jenkins.credentialsRegistry credentials with
          | nil => exact absurd h hne
          | cons a l => rfl
        simp [Jenkins.analyze_jenkins, hE, hcv, Report.rank, Priority.rank]
      · simp [Jenkins.analyze_jenkins, hv, hcv, Report.rank, Priority.rank]
  · have hwE : weak.isEmpty = false := by
      cases weak with
      | nil => exact absurd rfl hw
      | cons a l => rfl
    simp [Jenkins.analyze_jenkins, hwE, hw, Report.rank, Priority.rank]

/-- C9: config-analyzer priority is monotone in the triggered findings: for
the sshd and redis analyzers, whenever every finding triggered in the first
report is also triggered in the second, the first priority is less than or
equal to the second under INFO < LOW < MEDIUM < HIGH < CRITICAL; for the
Jenkins analyzer the same holds along its three finding dimensions (cracked
passwords, extracted credentials, extracted version). -/
theorem config_priority_monotone :
    (∀ a1 a2 a3 b1 b2 b3 : Bool,
      (a1 = true → b1 = true) → (a2 = true → b2 = true) → (a3 = true → b3 = true) →
      (Sshd.reportOf a1 a2 a3).rank ≤ (Sshd.reportOf b1 b2 b3).rank) ∧
    (∀ a1 a2 a3 b1 b2 b3 : Bool,
      (a1 = true → b1 = true) → (a2 = true → b2 = true) →
      ((!a3) = true → (!b3) = true) →
      (Redis.reportOf a1 a2 a3).rank ≤ (Redis.reportOf b1 b2 b3).rank) ∧
    (∀ (v v' : Option String) (c c' w w' : List (String × String)),
      (c ≠ [] → c' ≠ []) →
      (Jenkins.normVersion v ≠ "Unknown" → Jenkins.normVersion v' ≠ "Unknown") →
      (w ≠ [] → w' ≠ []) →
      (Jenkins.analyze_jenkins v c w).rank ≤ (Jenkins.analyze_jenkins v' c' w').rank) := by
  refine ⟨by decide, by decide, ?_⟩
  intro v v' c c' w w' hc hv hw
  rw [jenkins_rank_eq, jenkins_rank_eq]
  by_cases hwn : w = []
  · by_cases hwn' : w' = []
    · rw [if_pos hwn, if_pos hwn']
      by_cases hcv : c = [] ∧ Jenkins.normVersion v = "Unknown"
      · rw [if_pos hcv]
        split <;> omega
      · rw [if_neg hcv]
        have hcv' : ¬(c' = [] ∧ Jenkins.normVersion v' = "Unknown") := by
          intro h'
          rcases not_and_or.mp hcv with hcn | hvn
          · exact (hc hcn) h'.1
          · exact (hv hvn) h'.2
        rw [if_neg hcv']
    · rw [if_pos hwn, if_neg hwn']
      split <;> omega
  · rw [if_neg hwn, if_neg (hw hwn)]

end OpenRelik

namespace OpenRelik

/-- Witness for C9: concrete monotone pairs for the three analyzers. -/
theorem config_priority_monotone_witness :
    (Sshd.reportOf false false false).rank ≤ (Sshd.reportOf true false false).rank ∧
    (Redis.reportOf false false true).rank ≤ (Redis.reportOf true false true).rank ∧
    (Jenkins.analyze_jenkins none [] []).rank ≤
      (Jenkins.analyze_jenkins none [("alice", "hashA")] [("hashA", "pw")]).rank := by
  refine ⟨?_, ?_, ?_⟩
  · exact config_priority_monotone.1 false false false true false false
      (by decide) (by decide) (by decide)
  · exact config_priority_monotone.2.1 false false true true false true
      (by decide) (by decide) (by decide)
  · exact config_priority_monotone.2.2 none none [] [("alice", "hashA")] []
      [("hashA", "pw")] (by decide) (by decide) (by decide)

/-- C10: Jenkins credential extraction returns at most one
(username, password hash) pair for any config: the first fullName match
paired with the first passwordHash match, an empty list when either tag is
absent, and on a config with two users whose first fullName and first
passwordHash belong to different users it still returns the single
cross-user pair. -/
theorem jenkins_extract_single_pair :
    (∀ config : String, (Jenkins.extract_jenkins_credentials config).length ≤ 1) ∧
    (∀ (config : String) (u h : List Char),
      Jenkins.findTag "<fullName>".toList "</fullName>".toList config.toList = some u →
      Jenkins.findTag "<passwordHash>#jbcrypt:".toList "</passwordHash>".toList
          config.toList = some h →
      Jenkins.extract_jenkins_credentials config = [(u.asString, h.asString)]) ∧
    (∀ config : String,
      (Jenkins.findTag "<fullName>".toList "</fullName>".toList config.toList = none ∨
       Jenkins.findTag "<passwordHash>#jbcrypt:".toList "</passwordHash>".toList
          config.toList = none) →
      Jenkins.extract_jenkins_credentials config = []) ∧
    (Jenkins.extract_jenkins_credentials
        "<fullName>alice</fullName>\njunk\n<fullName>bob</fullName><passwordHash>#jbcrypt:h2</passwordHash>" =
      [("alice", "h2")]) := by
  refine ⟨?_, ?_, ?_, by decide⟩
  · intro config
    cases h1 : Jenkins.findTag "<fullName>".toList "</fullName>".toList config.toList <;>
      cases h2 : Jenkins.findTag "<passwordHash>#jbcrypt:".toList
          "</passwordHash>".toList config.toList <;>
        simp only [Jenkins.extract_jenkins_credentials, h1, h2] <;> simp
  · intro config u h h1 h2
    simp only [Jenkins.extract_jenkins_credentials, h1, h2]
  · intro config hor
    rcases hor with h1 | h2
    · cases h2 : Jenkins.findTag "<passwordHash>#jbcrypt:".toList
          "</passwordHash>".toList config.toList <;>
        simp only [Jenkins.extract_jenkins_credentials, h1, h2]
    · cases h1 : Jenkins.findTag "<fullName>".toList "</fullName>".toList config.toList <;>
        simp only [Jenkins.extract_jenkins_credentials, h1, h2]

/-- Witness for C10: a config holding both tags yields exactly the pair of
the two first matches. -/
theorem jenkins_extract_single_pair_witness :
    Jenkins.extract_jenkins_credentials
        "<fullName>alice</fullName>\n<passwordHash>#jbcrypt:hashA</passwordHash>" =
      [("alice", "hashA")] := by
  have h := jenkins_extract_single_pair.2.1
    "<fullName>alice</fullName>\n<passwordHash>#jbcrypt:hashA</passwordHash>"
    "alice".toList "hashA".toList (by decide) (by decide)
  simpa using h

end OpenRelik

